import Mathlib

/-!
Verification development for the Smart-Task-Analyzer repository.

The repository ships a README describing a Django backend plus a vanilla
JavaScript frontend, but only the README and frontend/script.js are present
under src.  The scoring engine itself (tasks/scoring.py, views.py,
serializers.py in the README project layout) is missing, so the engine is
modelled from the specification text; definitions taken from the spec carry
a doc comment starting with: Modelled from the spec.  The id-attachment and
dependency-parsing logic of frontend/script.js is embedded directly from
that source file.

Calendar dates are modelled as integer day numbers, and the reference
instant now is likewise a day number, so that due today means equality of
day numbers and days_until_due is a subtraction.
-/

/-- Modelled from the spec: the TaskRecord input entity of section 3 (the
backend tasks app is absent from src).  Fields id, title, due_date,
estimated_hours, importance, dependencies; estimated_hours and importance
may be absent or invalid before validation, hence Option types here. -/
structure TaskRecord where
  id : Int
  title : String
  due_date : Option Int
  estimated_hours : Option Rat
  importance : Option Int
  dependencies : List Int
deriving DecidableEq, Repr

/-- Modelled from the spec: the validated task produced by BatchValidator,
with estimated_hours and importance normalized to their defaults. -/
structure NormTask where
  id : Int
  title : String
  due_date : Option Int
  estimated_hours : Rat
  importance : Int
  dependencies : List Int
deriving DecidableEq, Repr

/-- Modelled from the spec: normalization of estimated_hours, default 1 when
absent or not positive (section 3 invariants, section 4.1). -/
def normalizeHours : Option Rat → Rat
  | none => 1
  | some q => if 0 < q then q else 1

/-- Modelled from the spec: normalization of importance, an integer 1 to 10,
default 5 when absent or out of range (section 3, section 4.1). -/
def normalizeImportance : Option Int → Int
  | none => 5
  | some v => if 1 ≤ v ∧ v ≤ 10 then v else 5

/-- Modelled from the spec: a raw record normalized into a NormTask. -/
def normalizeTask (t : TaskRecord) : NormTask :=
  ⟨t.id, t.title, t.due_date, normalizeHours t.estimated_hours,
    normalizeImportance t.importance, t.dependencies⟩

/-- Modelled from the spec: the three fatal validation error kinds of
section 4.1 and section 7, each carrying an offending id. -/
inductive ValidationError where
  | DuplicateIdError (id : Int)
  | SelfDependencyError (id : Int)
  | UnknownDependencyReferenceError (id : Int)
deriving DecidableEq, Repr

/-- First id that occurs at least twice in the list, none when all ids are
distinct. -/
def firstDup : List Int → Option Int
  | [] => none
  | x :: xs => if xs.contains x then some x else firstDup xs

/-- First task listing its own id among its dependencies. -/
def firstSelfDep : List TaskRecord → Option Int
  | [] => none
  | t :: ts => if t.dependencies.contains t.id then some t.id else firstSelfDep ts

/-- First dependency of t that is not among the given ids. -/
def unknownDepOf (ids : List Int) (t : TaskRecord) : Option Int :=
  t.dependencies.find? (fun d => !(ids.contains d))

/-- Scan for a dependency id that no record of the batch carries. -/
def firstUnknownDepAux (ids : List Int) : List TaskRecord → Option Int
  | [] => none
  | t :: ts =>
    match unknownDepOf ids t with
    | some d => some d
    | none => firstUnknownDepAux ids ts

/-- First dependency reference of the batch that matches no record id. -/
def firstUnknownDep (l : List TaskRecord) : Option Int :=
  firstUnknownDepAux (l.map TaskRecord.id) l

/-- Modelled from the spec: BatchValidator of section 4.1.  Rejects
duplicate ids, self dependencies and unknown dependency references, in the
order the spec lists the checks, and otherwise normalizes every record. -/
def validate (l : List TaskRecord) : Except ValidationError (List NormTask) :=
  match firstDup (l.map TaskRecord.id) with
  | some i => Except.error (ValidationError.DuplicateIdError i)
  | none =>
    match firstSelfDep l with
    | some i => Except.error (ValidationError.SelfDependencyError i)
    | none =>
      match firstUnknownDep l with
      | some d => Except.error (ValidationError.UnknownDependencyReferenceError d)
      | none => Except.ok (l.map normalizeTask)

/-- True when some task of the batch has id a and lists b as a dependency:
the edge a depends on b of the dependency graph (section 4.2). -/
def depEdge (ts : List NormTask) (a b : Int) : Bool :=
  ts.any (fun t => t.id == a && t.dependencies.contains b)

/-- Bounded reachability along dependency edges: a path of length at least
one and at most the fuel from a to b. -/
def reachB (ts : List NormTask) : Nat → Int → Int → Bool
  | 0, _, _ => false
  | Nat.succ k, a, b =>
    depEdge ts a b || ts.any (fun t => depEdge ts a t.id && reachB ts k t.id b)

/-- Modelled from the spec: a task is in a cycle when it is a direct or
transitive member of a cycle, that is, when a nonempty dependency path
leads from its id back to itself (section 4.2); fuel ts.length suffices
because a node on a cycle lies on a cycle of at most ts.length edges. -/
def inCycleB (ts : List NormTask) (i : Int) : Bool := reachB ts ts.length i i

/-- Modelled from the spec: the number of tasks that directly list the given
id as a dependency (section 4.2, dependents count). -/
def dependentsCount (ts : List NormTask) (i : Int) : Nat :=
  (ts.filter (fun t => t.dependencies.contains i)).length

/-- Modelled from the spec: UrgencyScorer of section 4.3.  No due date
gives 30; overdue or due today gives 100; a future date gives
100 minus min 90 (5 times days until due), floored at 10. -/
def urgencyScore (due : Option Int) (now : Int) : Int :=
  match due with
  | none => 30
  | some d => if d ≤ now then 100 else max 10 (100 - min 90 (5 * (d - now)))

/-- Rounding to the nearest integer, halves up, used for the spec word
round: floor of x plus one half. -/
def qround (x : Rat) : Int := ⌊x + 1 / 2⌋

/-- Clamp an integer into the interval 0 to 100. -/
def clampScore (z : Int) : Int := max 0 (min 100 z)

/-- Modelled from the spec: ImportanceScorer of section 4.4, ten times the
importance rating, clamped to 0 to 100. -/
def importanceScore (imp : Int) : Int := min 100 (imp * 10)

/-- Modelled from the spec: EffortScorer of section 4.5, 100 divided by one
plus estimated_hours, clamped and rounded. -/
def effortScore (h : Rat) : Int := clampScore (qround (100 / (1 + h)))

/-- Modelled from the spec: DependencyScorer of section 4.6, zero for
in-cycle tasks and otherwise min 100 (25 times the dependents count). -/
def dependencyScore (inC : Bool) (dents : Nat) : Int :=
  if inC then 0 else min 100 ((dents : Int) * 25)

/-- Modelled from the spec: a strategy weight vector (section 4.7). -/
structure Weights where
  urgency : Rat
  importance : Rat
  effort : Rat
  dependency : Rat
deriving DecidableEq, Repr

/-- Modelled from the spec: the default balanced strategy weights. -/
def balanced : Weights := ⟨4 / 10, 3 / 10, 2 / 10, 1 / 10⟩

/-- Modelled from the spec: the deadline-focused strategy weights. -/
def deadlineFocused : Weights := ⟨6 / 10, 2 / 10, 1 / 10, 1 / 10⟩

/-- Modelled from the spec: the quick-wins strategy weights. -/
def quickWins : Weights := ⟨2 / 10, 2 / 10, 5 / 10, 1 / 10⟩

/-- Modelled from the spec: the weighted sum of the four sub-scores under a
weight vector (section 4.7). -/
def weightedSum (w : Weights) (u i e d : Int) : Rat :=
  w.urgency * (u : Rat) + w.importance * (i : Rat) +
    w.effort * (e : Rat) + w.dependency * (d : Rat)

/-- Modelled from the spec: WeightedAggregator of section 4.7, the rounded
weighted sum clamped to 0 to 100. -/
def finalScore (w : Weights) (u i e d : Int) : Int :=
  clampScore (qround (weightedSum w u i e d))

/-- Modelled from the spec: the urgency-dominant reason phrase of section
4.8; Due soon is the rendering chosen for an urgency-dominant task whose
deadline is in the future, a case the spec leaves open. -/
def reasonUrgency (due : Option Int) (now : Int) : String :=
  match due with
  | some d => if d < now then "Overdue" else if d = now then "Due today" else "Due soon"
  | none => "Due soon"

/-- Modelled from the spec: ReasonGenerator of section 4.8.  In-cycle tasks
always report the circularity; otherwise the sub-score with the highest
weighted contribution wins, ties broken by the fixed priority urgency over
dependency over importance over effort. -/
def reasonFor (w : Weights) (due : Option Int) (now : Int) (inC : Bool)
    (dents : Nat) (u i e d : Int) : String :=
  if inC then "Circular dependency detected"
  else
    let cu := w.urgency * (u : Rat)
    let ci := w.importance * (i : Rat)
    let ce := w.effort * (e : Rat)
    let cd := w.dependency * (d : Rat)
    if cd ≤ cu ∧ ci ≤ cu ∧ ce ≤ cu then reasonUrgency due now
    else if ci ≤ cd ∧ ce ≤ cd then "Blocks " ++ toString dents ++ " tasks"
    else if ce ≤ ci then "High importance"
    else "Quick win"

/-- Modelled from the spec: the ScoredTask output entity of section 3, the
TaskRecord fields plus score, reason, the four breakdown sub-scores and the
in_cycle flag. -/
structure ScoredTask where
  id : Int
  title : String
  due_date : Option Int
  estimated_hours : Rat
  importance : Int
  dependencies : List Int
  score : Int
  reason : String
  urgencySub : Int
  importanceSub : Int
  effortSub : Int
  dependencySub : Int
  in_cycle : Bool
deriving DecidableEq, Repr

/-- Modelled from the spec: scoring one validated task of the batch ts
against a weight vector and the reference instant. -/
def scoreTask (w : Weights) (now : Int) (ts : List NormTask) (t : NormTask) : ScoredTask :=
  let inC := inCycleB ts t.id
  let dents := dependentsCount ts t.id
  let u := urgencyScore t.due_date now
  let i := importanceScore t.importance
  let e := effortScore t.estimated_hours
  let d := dependencyScore inC dents
  ⟨t.id, t.title, t.due_date, t.estimated_hours, t.importance, t.dependencies,
    finalScore w u i e d, reasonFor w t.due_date now inC dents u i e d,
    u, i, e, d, inC⟩

/-- A due date sorts strictly before another when both are present and it is
earlier, or when it is present and the other is absent (section 4.9). -/
def dueBefore : Option Int → Option Int → Bool
  | some a, some b => a < b
  | some _, none => true
  | none, _ => false

/-- Modelled from the spec: the ranking order of section 4.9, score
descending, ties broken by earlier due date with an absent due date last,
then by ascending id. -/
abbrev RankLE (a b : ScoredTask) : Prop :=
  b.score < a.score ∨
    (a.score = b.score ∧
      (dueBefore a.due_date b.due_date = true ∨
        (a.due_date = b.due_date ∧ a.id ≤ b.id)))

/-- Modelled from the spec: Ranker of section 4.9, a stable sort of the
scored tasks under the ranking order. -/
def rank (l : List ScoredTask) : List ScoredTask := List.insertionSort RankLE l

/-- Modelled from the spec: the Analyze operation of section 6, validation
followed by scoring every task and ranking the result. -/
def analyze (batch : List TaskRecord) (w : Weights) (now : Int) :
    Except ValidationError (List ScoredTask) :=
  match validate batch with
  | Except.error e => Except.error e
  | Except.ok ts => Except.ok (rank (ts.map (scoreTask w now ts)))

/-- Modelled from the spec: one suggestion entry, title, score and the
reason text relabeled why (section 4.9, section 6). -/
structure Suggestion where
  title : String
  score : Int
  why : String
deriving DecidableEq, Repr

/-- Modelled from the spec: rendering a scored task as a suggestion. -/
def renderSuggestion (t : ScoredTask) : Suggestion := ⟨t.title, t.score, t.reason⟩

/-- Modelled from the spec: the Suggest operation of section 6, the top n
tasks of the Analyze ranking rendered as suggestions. -/
def suggest (batch : List TaskRecord) (w : Weights) (now : Int) (n : Nat) :
    Except ValidationError (List Suggestion) :=
  match analyze batch w now with
  | Except.error e => Except.error e
  | Except.ok l => Except.ok ((l.take n).map renderSuggestion)

/-- Decidable equality of Except results, used to evaluate the engine on
concrete batches. -/
instance instDecEqExcept {ε α : Type} [DecidableEq ε] [DecidableEq α] :
    DecidableEq (Except ε α)
  | Except.error a, Except.error b =>
    if h : a = b then isTrue (congrArg Except.error h)
    else isFalse (fun hc => h (Except.error.inj hc))
  | Except.error _, Except.ok _ => isFalse (fun hc => Except.noConfusion hc)
  | Except.ok _, Except.error _ => isFalse (fun hc => Except.noConfusion hc)
  | Except.ok a, Except.ok b =>
    if h : a = b then isTrue (congrArg Except.ok h)
    else isFalse (fun hc => h (Except.ok.inj hc))

/-- From frontend/script.js: a record id is reassigned exactly when the
JavaScript test if not t.id fires, that is, when the id is absent or is the
falsy number 0. -/
def jsFalsyId : Option Int → Bool
  | none => true
  | some v => v == 0

/-- From frontend/script.js, lines 56 to 59 of the analyze click handler:
parsed.forEach assigns t.id = nextId++ to every record whose id is falsy.
The model walks the list of id fields with the counter nextId and returns
the resulting ids together with the final counter value. -/
def attachIds : List (Option Int) → Int → List Int × Int
  | [], n => ([], n)
  | t :: ts, n =>
    if jsFalsyId t then
      let p := attachIds ts (n + 1)
      (n :: p.1, p.2)
    else
      let p := attachIds ts n
      ((t.getD 0) :: p.1, p.2)

/-- Number of records of the batch whose id field is falsy. -/
def countFalsy (l : List (Option Int)) : Nat := l.countP jsFalsyId

/-- Value of a decimal digit character, none for any other character. -/
def decDigit? (c : Char) : Option Nat :=
  if c.isDigit then some (c.toNat - 48) else none

/-- Value of a hexadecimal digit character, none for any other character. -/
def hexDigit? (c : Char) : Option Nat :=
  if c.isDigit then some (c.toNat - 48)
  else if 97 ≤ c.toNat ∧ c.toNat ≤ 102 then some (c.toNat - 87)
  else if 65 ≤ c.toNat ∧ c.toNat ≤ 70 then some (c.toNat - 55)
  else none

/-- Accumulate the longest digit prefix of the character list; the
accumulator stays none until a first digit is read, matching parseInt
returning NaN when no digit is present. -/
def parseDigits (dv : Char → Option Nat) (base : Nat) : List Char → Option Nat → Option Nat
  | [], acc => acc
  | c :: cs, acc =>
    match dv c with
    | some v => parseDigits dv base cs (some (acc.getD 0 * base + v))
    | none => acc

/-- Magnitude part of the JavaScript parseInt grammar with no radix
argument: a 0x or 0X prefix switches to hexadecimal, otherwise the longest
decimal digit prefix is read; none models NaN. -/
def parseIntMag : List Char → Option Nat
  | '0' :: c :: r =>
    if c == 'x' || c == 'X' then parseDigits hexDigit? 16 r none
    else parseDigits decDigit? 10 ('0' :: c :: r) none
  | cs => parseDigits decDigit? 10 cs none

/-- From frontend/script.js: the behaviour of parseInt on an already
trimmed character list, an optional sign followed by the magnitude; none
models NaN. -/
def jsParseInt (cs : List Char) : Option Int :=
  match cs with
  | '-' :: r => (parseIntMag r).map (fun m => -(m : Int))
  | '+' :: r => (parseIntMag r).map (fun m => (m : Int))
  | r => (parseIntMag r).map (fun m => (m : Int))

/-- The trim of JavaScript strings, modelled on character lists: leading and
trailing whitespace removed. -/
def trimChars (cs : List Char) : List Char :=
  ((cs.dropWhile Char.isWhitespace).reverse.dropWhile Char.isWhitespace).reverse

/-- Splitting a character list at every comma, the splitting done by the
JavaScript split with separator comma: n commas give n plus one tokens. -/
def splitCommaAux : List Char → List Char → List (List Char)
  | [], acc => [acc.reverse]
  | c :: cs, acc =>
    if c == ',' then acc.reverse :: splitCommaAux cs []
    else splitCommaAux cs (c :: acc)

/-- Splitting a character list at commas, starting with an empty token. -/
def splitComma (cs : List Char) : List (List Char) := splitCommaAux cs []

/-- From frontend/script.js, line 26: the raw dependencies input is trimmed,
and the falsy-string guard maps a blank input to no tokens at all;
otherwise line 27 splits at commas. -/
def depTokens (raw : String) : List (List Char) :=
  let t := trimChars raw.data
  if t.isEmpty then [] else splitComma t

/-- From frontend/script.js, line 27: each token is trimmed and fed to
parseInt. -/
def jsToken (cs : List Char) : Option Int := jsParseInt (trimChars cs)

/-- From frontend/script.js, line 27: filter(Boolean) keeps a parse result
exactly when it is a number and nonzero, dropping NaN and 0. -/
def truthyInt : Option Int → Option Int
  | none => none
  | some v => if v == 0 then none else some v

/-- From frontend/script.js, line 27: the dependencies array built by the
add-task click handler from the raw input string. -/
def parseDependencies (raw : String) : List Int :=
  ((depTokens raw).map jsToken).filterMap truthyInt

/-- Totality of the ranking order: any two scored tasks are comparable,
because the final tie-break compares ids. -/
instance : IsTotal ScoredTask RankLE := by
  constructor
  intro a b
  have hconn : ∀ x y : Option Int, dueBefore x y = true ∨ dueBefore y x = true ∨ x = y := by
    intro x y
    cases x <;> cases y <;> simp [dueBefore] <;> omega
  rcases lt_trichotomy a.score b.score with h | h | h
  · exact Or.inr (Or.inl h)
  · rcases hconn a.due_date b.due_date with hd | hd | hd
    · exact Or.inl (Or.inr ⟨h, Or.inl hd⟩)
    · exact Or.inr (Or.inr ⟨h.symm, Or.inl hd⟩)
    · rcases le_total a.id b.id with hi | hi
      · exact Or.inl (Or.inr ⟨h, Or.inr ⟨hd, hi⟩⟩)
      · exact Or.inr (Or.inr ⟨h.symm, Or.inr ⟨hd.symm, hi⟩⟩)
  · exact Or.inl (Or.inl h)

/-- Transitivity of the ranking order, componentwise on the lexicographic
chain score, due date, id. -/
instance : IsTrans ScoredTask RankLE := by
  constructor
  intro a b c hab hbc
  have htr : ∀ x y z : Option Int,
      dueBefore x y = true → dueBefore y z = true → dueBefore x z = true := by
    intro x y z
    cases x <;> cases y <;> cases z <;> simp [dueBefore] <;> omega
  rcases hab with h1 | ⟨hs1, h1⟩
  · rcases hbc with h2 | ⟨hs2, h2⟩
    · exact Or.inl (lt_trans h2 h1)
    · exact Or.inl (hs2 ▸ h1)
  · rcases hbc with h2 | ⟨hs2, h2⟩
    · exact Or.inl (by rw [hs1]; exact h2)
    · refine Or.inr ⟨hs1.trans hs2, ?_⟩
      rcases h1 with hd1 | ⟨he1, hi1⟩
      · rcases h2 with hd2 | ⟨he2, hi2⟩
        · exact Or.inl (htr _ _ _ hd1 hd2)
        · exact Or.inl (he2 ▸ hd1)
      · rcases h2 with hd2 | ⟨he2, hi2⟩
        · exact Or.inl (by rw [he1]; exact hd2)
        · exact Or.inr ⟨he1.trans he2, le_trans hi1 hi2⟩

/-- The task of the README analyze example and of the spec scenario: Fix
login bug, due on the reference day, three estimated hours, importance
eight, no dependencies. -/
def fixLoginRecord : TaskRecord := ⟨1, "Fix login bug", some 0, some 3, some 8, []⟩

/-- The scored output the spec scenario expects for fixLoginRecord. -/
def fixLoginScored : ScoredTask :=
  ⟨1, "Fix login bug", some 0, 3, 8, [], 69, "Due today", 100, 80, 25, 0, false⟩

/-- The three-task cyclic batch of the spec test property: A depends on B,
B depends on C, C depends on A. -/
def cycBatch : List TaskRecord :=
  [⟨1, "A", none, none, none, [2]⟩, ⟨2, "B", none, none, none, [3]⟩,
    ⟨3, "C", none, none, none, [1]⟩]

/-- The normalized form of cycBatch. -/
def cycTs : List NormTask :=
  [⟨1, "A", none, 1, 5, [2]⟩, ⟨2, "B", none, 1, 5, [3]⟩, ⟨3, "C", none, 1, 5, [1]⟩]

/-- The floor characterization of qround at a concrete value. -/
theorem qround_eq (x : Rat) (n : Int) (h1 : (n : Rat) ≤ x + 1 / 2)
    (h2 : x + 1 / 2 < (n : Rat) + 1) : qround x = n := by
  rw [qround]
  exact Int.floor_eq_iff.mpr ⟨h1, h2⟩

/-- Clamping is the identity inside the interval 0 to 100. -/
theorem clampScore_eq (z : Int) (h0 : 0 ≤ z) (h1 : z ≤ 100) : clampScore z = z := by
  rw [clampScore]; omega

/-- The clamped value is never negative. -/
theorem clampScore_nonneg (z : Int) : 0 ≤ clampScore z := by
  rw [clampScore]; omega

/-- The clamped value never exceeds 100. -/
theorem clampScore_le_100 (z : Int) : clampScore z ≤ 100 := by
  rw [clampScore]; omega

/-- Clamping preserves order. -/
theorem clampScore_mono (z1 z2 : Int) (h : z1 ≤ z2) : clampScore z1 ≤ clampScore z2 := by
  rw [clampScore, clampScore]; omega

/-- Evaluation lemma for a final score whose weighted sum is known to round
into the clamping interval. -/
theorem finalScore_eq (w : Weights) (u i e d n : Int) (h0 : 0 ≤ n) (h1 : n ≤ 100)
    (hl : (n : Rat) ≤ weightedSum w u i e d + 1 / 2)
    (hr : weightedSum w u i e d + 1 / 2 < (n : Rat) + 1) :
    finalScore w u i e d = n := by
  rw [finalScore, qround_eq _ n hl hr, clampScore_eq _ h0 h1]

/-- Evaluation lemma for the effort sub-score. -/
theorem effortScore_eq (h : Rat) (n : Int) (h0 : 0 ≤ n) (h1 : n ≤ 100)
    (hl : (n : Rat) ≤ 100 / (1 + h) + 1 / 2)
    (hr : 100 / (1 + h) + 1 / 2 < (n : Rat) + 1) :
    effortScore h = n := by
  rw [effortScore, qround_eq _ n hl hr, clampScore_eq _ h0 h1]

/-- Full evaluation of the engine on the spec scenario batch. -/
theorem analyze_fixLogin :
    analyze [fixLoginRecord] balanced 0 = Except.ok [fixLoginScored] := by
  have hv : validate [fixLoginRecord] = Except.ok [⟨1, "Fix login bug", some 0, 3, 8, []⟩] := by
    decide
  have he : effortScore 3 = 25 := effortScore_eq 3 25 (by decide) (by decide)
    (by norm_num) (by norm_num)
  have hf : finalScore balanced 100 80 25 0 = 69 := finalScore_eq balanced 100 80 25 0 69
    (by decide) (by decide) (by norm_num [weightedSum, balanced])
    (by norm_num [weightedSum, balanced])
  have hr : reasonFor balanced (some 0) 0 false 0 100 80 25 0 = "Due today" := by
    norm_num [reasonFor, reasonUrgency, balanced]
  rw [analyze, hv]
  simp only [List.map, scoreTask, rank, List.insertionSort, List.orderedInsert]
  norm_num [inCycleB, reachB, depEdge, dependentsCount, urgencyScore, importanceScore,
    dependencyScore, he, hf, hr, fixLoginScored]

/-- C3: for every valid batch, every final score in the Analyze output is an
integer in the interval 0 to 100, the rounded weighted sum being clamped to
that interval. -/
theorem c3_score_range (batch : List TaskRecord) (w : Weights) (now : Int)
    (l : List ScoredTask) (h : analyze batch w now = Except.ok l) :
    ∀ t ∈ l, 0 ≤ t.score ∧ t.score ≤ 100 := by
  intro t ht
  rw [analyze] at h
  cases hv : validate batch with
  | error e => rw [hv] at h; exact absurd h (by simp)
  | ok ts =>
    rw [hv] at h
    have hl : l = rank (ts.map (scoreTask w now ts)) := by
      cases h; rfl
    subst hl
    rw [rank] at ht
    have hmem : t ∈ ts.map (scoreTask w now ts) := (List.mem_insertionSort RankLE).mp ht
    obtain ⟨u, hu, rfl⟩ := List.mem_map.mp hmem
    simp only [scoreTask]
    exact ⟨clampScore_nonneg _, clampScore_le_100 _⟩

/-- Witness for C3 on the concrete spec scenario batch. -/
theorem c3_score_range_witness : 0 ≤ fixLoginScored.score ∧ fixLoginScored.score ≤ 100 :=
  c3_score_range [fixLoginRecord] balanced 0 [fixLoginScored] analyze_fixLogin
    fixLoginScored (by decide)

/-- C4: for every task and reference instant, a missing due date gives
urgency 30, an overdue or due-today date gives urgency 100, a future date
gives 100 minus min 90 (5 times days until due) which is floored at 10, and
a task with a deadline never scores below 10. -/
theorem c4_urgency (d now : Int) :
    urgencyScore none now = 30
    ∧ (d ≤ now → urgencyScore (some d) now = 100)
    ∧ (now < d → urgencyScore (some d) now = 100 - min 90 (5 * (d - now))
        ∧ 10 ≤ 100 - min 90 (5 * (d - now)))
    ∧ 10 ≤ urgencyScore (some d) now := by
  refine ⟨rfl, fun h => ?_, fun h => ?_, ?_⟩
  · simp only [urgencyScore]
    rw [if_pos h]
  · simp only [urgencyScore]
    rw [if_neg (by omega)]
    omega
  · simp only [urgencyScore]
    split <;> omega

/-- Witness for C4 at a missing date, an overdue date and a future date. -/
theorem c4_urgency_witness : urgencyScore none 0 = 30
    ∧ urgencyScore (some (-1)) 0 = 100
    ∧ urgencyScore (some 3) 0 = 100 - min 90 (5 * (3 - 0)) :=
  ⟨(c4_urgency 0 0).1, (c4_urgency (-1) 0).2.1 (by decide),
    ((c4_urgency 3 0).2.2.1 (by decide)).1⟩

/-- C9: Analyze and Suggest are deterministic, identical batches, weights
and reference instants give identical outputs in every respect. -/
theorem c9_deterministic (b1 b2 : List TaskRecord) (w1 w2 : Weights)
    (n1 n2 : Int) (k : Nat) (hb : b1 = b2) (hw : w1 = w2) (hn : n1 = n2) :
    analyze b1 w1 n1 = analyze b2 w2 n2 ∧ suggest b1 w1 n1 k = suggest b2 w2 n2 k := by
  subst hb; subst hw; subst hn
  exact ⟨rfl, rfl⟩

/-- Witness for C9 on the concrete spec scenario batch. -/
theorem c9_deterministic_witness :
    analyze [fixLoginRecord] balanced 0 = analyze [fixLoginRecord] balanced 0
    ∧ suggest [fixLoginRecord] balanced 0 3 = suggest [fixLoginRecord] balanced 0 3 :=
  c9_deterministic [fixLoginRecord] [fixLoginRecord] balanced balanced 0 0 3 rfl rfl rfl

/-- C1: the spec scenario, the task Fix login bug due on the reference day
with three estimated hours, importance eight and no dependencies, analyzed
under the default balanced strategy, yields sub-scores urgency 100,
importance 80, effort 25, dependency 0, final score 69 and reason Due
today. -/
theorem c1_fix_login_scenario :
    analyze [fixLoginRecord] balanced 0 =
      Except.ok [⟨1, "Fix login bug", some 0, 3, 8, [], 69, "Due today",
        100, 80, 25, 0, false⟩] :=
  analyze_fixLogin

/-- C7: for every valid batch the Analyze output is sorted by the ranking
order, score descending with ties broken by earlier due date, an absent due
date last, then ascending id; and Suggest returns exactly the top n of this
ordering rendered with title, score and the reason relabeled why. -/
theorem c7_ranking (batch : List TaskRecord) (w : Weights) (now : Int) (n : Nat)
    (l : List ScoredTask) (h : analyze batch w now = Except.ok l) :
    List.Pairwise RankLE l
    ∧ suggest batch w now n = Except.ok ((l.take n).map renderSuggestion) := by
  constructor
  · rw [analyze] at h
    cases hv : validate batch with
    | error e => rw [hv] at h; exact absurd h (by simp)
    | ok ts =>
      rw [hv] at h
      have hl : l = rank (ts.map (scoreTask w now ts)) := by cases h; rfl
      subst hl
      rw [rank]
      exact List.sorted_insertionSort RankLE _
  · rw [suggest, h]

/-- Witness for C7 on the concrete spec scenario batch. -/
theorem c7_ranking_witness : List.Pairwise RankLE [fixLoginScored]
    ∧ suggest [fixLoginRecord] balanced 0 2 =
        Except.ok (([fixLoginScored].take 2).map renderSuggestion) :=
  c7_ranking [fixLoginRecord] balanced 0 2 [fixLoginScored] analyze_fixLogin

/-- C5: a batch containing a dependency cycle is not rejected, every task on
a cycle is flagged in_cycle and receives dependency sub-score exactly 0,
and every task not on a cycle receives min 100 (25 times its dependents
count). -/
theorem c5_cycles (batch : List TaskRecord) (w : Weights) (now : Int)
    (ts : List NormTask) (hv : validate batch = Except.ok ts) :
    analyze batch w now = Except.ok (rank (ts.map (scoreTask w now ts)))
    ∧ ∀ l, analyze batch w now = Except.ok l → ∀ st ∈ l,
        st.in_cycle = inCycleB ts st.id
        ∧ (st.in_cycle = true → st.dependencySub = 0)
        ∧ (st.in_cycle = false →
            st.dependencySub = min 100 ((dependentsCount ts st.id : Int) * 25)) := by
  have ha : analyze batch w now = Except.ok (rank (ts.map (scoreTask w now ts))) := by
    rw [analyze, hv]
  refine ⟨ha, ?_⟩
  intro l hl st hst
  rw [ha] at hl
  have hle : l = rank (ts.map (scoreTask w now ts)) := by cases hl; rfl
  subst hle
  rw [rank] at hst
  obtain ⟨u, hu, rfl⟩ := List.mem_map.mp ((List.mem_insertionSort RankLE).mp hst)
  refine ⟨by simp only [scoreTask], ?_, ?_⟩
  · intro hc
    simp only [scoreTask] at hc ⊢
    rw [dependencyScore, if_pos hc]
  · intro hc
    simp only [scoreTask] at hc ⊢
    rw [dependencyScore, if_neg (by rw [hc]; exact Bool.false_ne_true)]

/-- Witness for C5 on the cyclic batch A depends on B depends on C depends
on A: analysis succeeds, and task A is flagged with dependency sub-score
0. -/
theorem c5_cycles_witness :
    (analyze cycBatch balanced 0 =
        Except.ok (rank (cycTs.map (scoreTask balanced 0 cycTs))))
    ∧ (scoreTask balanced 0 cycTs ⟨1, "A", none, 1, 5, [2]⟩).in_cycle = true
    ∧ (scoreTask balanced 0 cycTs ⟨1, "A", none, 1, 5, [2]⟩).dependencySub = 0 := by
  have h := c5_cycles cycBatch balanced 0 cycTs (by decide)
  have hmem : scoreTask balanced 0 cycTs ⟨1, "A", none, 1, 5, [2]⟩ ∈
      rank (cycTs.map (scoreTask balanced 0 cycTs)) := by
    rw [rank]
    exact (List.mem_insertionSort RankLE).mpr (List.mem_map_of_mem _ (by decide))
  have h2 := h.2 _ h.1 _ hmem
  have hin : (scoreTask balanced 0 cycTs ⟨1, "A", none, 1, 5, [2]⟩).in_cycle = true := by
    rw [h2.1]
    simp only [scoreTask]
    decide
  exact ⟨h.1, hin, h2.2.1 hin⟩

/-- The duplicate scan returns none exactly when the ids are pairwise
distinct. -/
theorem firstDup_eq_none_iff (l : List Int) : firstDup l = none ↔ l.Nodup := by
  induction l with
  | nil => simp [firstDup]
  | cons x xs ih =>
    by_cases hc : xs.contains x = true
    · have hx : x ∈ xs := by simpa using hc
      simp [firstDup, hc, List.nodup_cons, hx]
    · have hx : x ∉ xs := by simpa using hc
      simp [firstDup, hc, List.nodup_cons, hx, ih]

/-- The self-dependency scan returns none exactly when no task lists its
own id. -/
theorem firstSelfDep_eq_none_iff (l : List TaskRecord) :
    firstSelfDep l = none ↔ ∀ t ∈ l, t.id ∉ t.dependencies := by
  induction l with
  | nil => simp [firstSelfDep]
  | cons t ts ih =>
    by_cases hc : t.dependencies.contains t.id = true
    · have hx : t.id ∈ t.dependencies := by simpa using hc
      simp [firstSelfDep, hc, hx]
    · have hx : t.id ∉ t.dependencies := by simpa using hc
      simp [firstSelfDep, hc, ih, hx]

/-- When some task carries a dependency outside the given ids, the unknown
dependency scan finds one. -/
theorem firstUnknownDepAux_isSome (ids : List Int) (l : List TaskRecord)
    (h : ∃ t ∈ l, ∃ d ∈ t.dependencies, ids.contains d = false) :
    ∃ d, firstUnknownDepAux ids l = some d := by
  induction l with
  | nil => simp at h
  | cons t ts ih =>
    cases hu : unknownDepOf ids t with
    | some d => exact ⟨d, by simp [firstUnknownDepAux, hu]⟩
    | none =>
      obtain ⟨t', ht', d, hd, hcd⟩ := h
      rcases List.mem_cons.mp ht' with rfl | hmem
      · exfalso
        rw [unknownDepOf] at hu
        have hnone := List.find?_eq_none.mp hu d hd
        rw [hcd] at hnone
        exact hnone rfl
      · have := ih ⟨t', hmem, d, hd, hcd⟩
        simpa [firstUnknownDepAux, hu] using this

/-- C6: a batch with a duplicate explicit id, a self-dependency or a
dependency id matching no record is rejected whole with the corresponding
error kind, and a rejected batch never yields any scored tasks. -/
theorem c6_rejects (batch : List TaskRecord) (w : Weights) (now : Int) :
    (¬ (batch.map TaskRecord.id).Nodup →
        ∃ i, analyze batch w now = Except.error (ValidationError.DuplicateIdError i))
    ∧ ((batch.map TaskRecord.id).Nodup → (∃ t ∈ batch, t.id ∈ t.dependencies) →
        ∃ i, analyze batch w now = Except.error (ValidationError.SelfDependencyError i))
    ∧ ((batch.map TaskRecord.id).Nodup → (∀ t ∈ batch, t.id ∉ t.dependencies) →
        (∃ t ∈ batch, ∃ d ∈ t.dependencies, d ∉ batch.map TaskRecord.id) →
        ∃ d, analyze batch w now =
          Except.error (ValidationError.UnknownDependencyReferenceError d))
    ∧ (∀ e, analyze batch w now = Except.error e →
        ∀ l, analyze batch w now ≠ Except.ok l) := by
  refine ⟨?_, ?_, ?_, ?_⟩
  · intro hnd
    have hne : firstDup (batch.map TaskRecord.id) ≠ none :=
      fun hn => hnd ((firstDup_eq_none_iff _).mp hn)
    obtain ⟨i, hi⟩ := Option.ne_none_iff_exists'.mp hne
    exact ⟨i, by simp [analyze, validate, hi]⟩
  · intro hnd hself
    have hd : firstDup (batch.map TaskRecord.id) = none := (firstDup_eq_none_iff _).mpr hnd
    have hne : firstSelfDep batch ≠ none := by
      intro hn
      obtain ⟨t, ht, hmem⟩ := hself
      exact (firstSelfDep_eq_none_iff _).mp hn t ht hmem
    obtain ⟨i, hi⟩ := Option.ne_none_iff_exists'.mp hne
    exact ⟨i, by simp [analyze, validate, hd, hi]⟩
  · intro hnd hnself hunk
    have hd : firstDup (batch.map TaskRecord.id) = none := (firstDup_eq_none_iff _).mpr hnd
    have hs : firstSelfDep batch = none := (firstSelfDep_eq_none_iff _).mpr hnself
    have hex : ∃ t ∈ batch, ∃ d ∈ t.dependencies,
        (batch.map TaskRecord.id).contains d = false := by
      obtain ⟨t, ht, d, hdm, hdn⟩ := hunk
      exact ⟨t, ht, d, hdm, by simpa using hdn⟩
    obtain ⟨d, hfu⟩ := firstUnknownDepAux_isSome (batch.map TaskRecord.id) batch hex
    refine ⟨d, ?_⟩
    have hfu2 : firstUnknownDep batch = some d := by rw [firstUnknownDep]; exact hfu
    simp [analyze, validate, hd, hs, hfu2]
  · intro e he l
    rw [he]
    simp

/-- Witness for C6 on a duplicate-id batch, a self-dependency batch and an
unknown-dependency batch. -/
theorem c6_rejects_witness :
    (∃ i, analyze [⟨1, "a", none, none, none, []⟩, ⟨1, "b", none, none, none, []⟩]
        balanced 0 = Except.error (ValidationError.DuplicateIdError i))
    ∧ (∃ i, analyze [⟨1, "a", none, none, none, [1]⟩] balanced 0
        = Except.error (ValidationError.SelfDependencyError i))
    ∧ (∃ d, analyze [⟨1, "a", none, none, none, [2]⟩] balanced 0
        = Except.error (ValidationError.UnknownDependencyReferenceError d)) :=
  ⟨(c6_rejects _ balanced 0).1 (by decide),
   (c6_rejects _ balanced 0).2.1 (by decide) (by decide),
   (c6_rejects _ balanced 0).2.2.1 (by decide) (by decide) (by decide)⟩

/-- Rounding preserves order. -/
theorem qround_mono (x y : Rat) (h : x ≤ y) : qround x ≤ qround y := by
  rw [qround, qround]
  exact Int.floor_le_floor (by linarith)

/-- C8: holding every other field and the reference instant fixed, a higher
importance never lowers the final score, fewer estimated hours never lower
the effort sub-score, and an earlier due date never lowers the urgency
sub-score. -/
theorem c8_monotone :
    (∀ (w : Weights) (now : Int) (ts : List NormTask) (t1 t2 : NormTask),
        0 ≤ w.importance → t1.id = t2.id → t1.due_date = t2.due_date →
        t1.estimated_hours = t2.estimated_hours → t1.importance ≤ t2.importance →
        (scoreTask w now ts t1).score ≤ (scoreTask w now ts t2).score)
    ∧ (∀ h1 h2 : Rat, 0 ≤ h1 → h1 ≤ h2 → effortScore h2 ≤ effortScore h1)
    ∧ (∀ now d1 d2 : Int, d1 ≤ d2 →
        urgencyScore (some d2) now ≤ urgencyScore (some d1) now) := by
  refine ⟨?_, ?_, ?_⟩
  · intro w now ts t1 t2 hw hid hdue hest himp
    have himps : importanceScore t1.importance ≤ importanceScore t2.importance := by
      rw [importanceScore, importanceScore]
      omega
    simp only [scoreTask, hid, hdue, hest, finalScore]
    apply clampScore_mono
    apply qround_mono
    rw [weightedSum, weightedSum]
    have hc : ((importanceScore t1.importance : Int) : Rat) ≤
        ((importanceScore t2.importance : Int) : Rat) := Int.cast_le.mpr himps
    have hmul := mul_le_mul_of_nonneg_left hc hw
    linarith
  · intro h1 h2 h0 hle
    rw [effortScore, effortScore]
    apply clampScore_mono
    apply qround_mono
    have hp1 : (0 : Rat) < 1 + h1 := by linarith
    have hp2 : (0 : Rat) < 1 + h2 := by linarith
    rw [div_le_div_iff hp2 hp1]
    linarith
  · intro now d1 d2 h
    simp only [urgencyScore]
    split_ifs <;> omega

/-- Witness for C8 at importance 3 against 7, estimated hours 2 against 1,
and due dates 5 against 1 around the reference day 0. -/
theorem c8_monotone_witness :
    ((scoreTask ⟨1, 1, 1, 1⟩ 0 [] ⟨1, "a", none, 1, 3, []⟩).score ≤
        (scoreTask ⟨1, 1, 1, 1⟩ 0 [] ⟨1, "a", none, 1, 7, []⟩).score)
    ∧ effortScore 2 ≤ effortScore 1
    ∧ urgencyScore (some 5) 0 ≤ urgencyScore (some 1) 0 :=
  ⟨c8_monotone.1 ⟨1, 1, 1, 1⟩ 0 [] ⟨1, "a", none, 1, 3, []⟩ ⟨1, "a", none, 1, 7, []⟩
      (by decide) rfl rfl rfl (by decide),
   c8_monotone.2.1 1 2 (by decide) (by decide),
   c8_monotone.2.2 0 1 5 (by decide)⟩

/-- Counting falsy ids over a cons. -/
theorem countFalsy_cons (t : Option Int) (ts : List (Option Int)) :
    countFalsy (t :: ts) = countFalsy ts + (if jsFalsyId t then 1 else 0) := by
  simp [countFalsy, List.countP_cons]

/-- Attaching ids preserves the number of records. -/
theorem attachIds_length (l : List (Option Int)) (n : Int) :
    (attachIds l n).1.length = l.length := by
  induction l generalizing n with
  | nil => rfl
  | cons t ts ih =>
    cases hft : jsFalsyId t <;> simp [attachIds, hft, ih]

/-- The counter advances by exactly the number of falsy ids. -/
theorem attachIds_snd (l : List (Option Int)) (n : Int) :
    (attachIds l n).2 = n + countFalsy l := by
  induction l generalizing n with
  | nil => simp [attachIds, countFalsy]
  | cons t ts ih =>
    cases hft : jsFalsyId t <;> simp [attachIds, hft, countFalsy_cons, ih] <;> omega

/-- Every id assigned from the counter is at least the starting counter
value. -/
theorem attachIds_lower (l : List (Option Int)) (n : Int) :
    ∀ i, i < l.length → jsFalsyId (l.getD i none) = true →
      n ≤ (attachIds l n).1.getD i 0 := by
  induction l generalizing n with
  | nil =>
    intro i hi
    simp at hi
  | cons t ts ih =>
    intro i hi hf
    cases hft : jsFalsyId t
    · cases i with
      | zero =>
        rw [List.getD_cons_zero, hft] at hf
        exact absurd hf (by simp)
      | succ j =>
        rw [List.getD_cons_succ] at hf
        simp only [attachIds, hft]
        simp only [Bool.false_eq_true, if_false, List.getD_cons_succ]
        exact ih n j (by simpa using hi) hf
    · cases i with
      | zero =>
        simp [attachIds, hft]
      | succ j =>
        rw [List.getD_cons_succ] at hf
        simp only [attachIds, hft, if_true, List.getD_cons_succ]
        have := ih (n + 1) j (by simpa using hi) hf
        omega

/-- Ids assigned from the counter are strictly increasing along the batch,
hence pairwise distinct among themselves. -/
theorem attachIds_strict (l : List (Option Int)) (n : Int) :
    ∀ i j, i < j → j < l.length →
      jsFalsyId (l.getD i none) = true → jsFalsyId (l.getD j none) = true →
      (attachIds l n).1.getD i 0 < (attachIds l n).1.getD j 0 := by
  induction l generalizing n with
  | nil =>
    intro i j hij hj
    simp at hj
  | cons t ts ih =>
    intro i j hij hj hfi hfj
    cases i with
    | zero =>
      have hft : jsFalsyId t = true := by simpa using hfi
      cases j with
      | zero => omega
      | succ j' =>
        rw [List.getD_cons_succ] at hfj
        simp only [attachIds, hft, if_true, List.getD_cons_zero, List.getD_cons_succ]
        have hlow := attachIds_lower ts (n + 1) j' (by simpa using hj) hfj
        omega
    | succ i' =>
      cases j with
      | zero => omega
      | succ j' =>
        rw [List.getD_cons_succ] at hfi hfj
        cases hft : jsFalsyId t
        · simp only [attachIds, hft, Bool.false_eq_true, if_false, List.getD_cons_succ]
          exact ih n i' j' (by omega) (by simpa using hj) hfi hfj
        · simp only [attachIds, hft, if_true, List.getD_cons_succ]
          exact ih (n + 1) i' j' (by omega) (by simpa using hj) hfi hfj

/-- C2, counterexample to the claim as stated: at the two-record batch with
explicit id 1 followed by a record without id, and counter 1, the handler
assigns id 1 to the second record, so the ids collide with the explicit id
and the batch ids are not unique. -/
theorem c2_counterexample :
    (attachIds [some 1, none] 1).1 = [1, 1]
    ∧ ¬ (attachIds [some 1, none] 1).1.Nodup := by
  constructor
  · decide
  · decide

/-- C2, amended: records with falsy ids receive counter values, the counter
advances by the number of falsy records, assigned ids never fall below the
starting counter and are strictly increasing along the batch, hence
pairwise distinct among themselves; no collision avoidance with explicit
ids takes place. -/
theorem c2_amended_assignment (l : List (Option Int)) (n : Int) :
    ((attachIds l n).1.length = l.length)
    ∧ ((attachIds l n).2 = n + countFalsy l)
    ∧ (∀ i, i < l.length → jsFalsyId (l.getD i none) = true →
        n ≤ (attachIds l n).1.getD i 0)
    ∧ (∀ i j, i < j → j < l.length →
        jsFalsyId (l.getD i none) = true → jsFalsyId (l.getD j none) = true →
        (attachIds l n).1.getD i 0 < (attachIds l n).1.getD j 0) :=
  ⟨attachIds_length l n, attachIds_snd l n, attachIds_lower l n, attachIds_strict l n⟩

/-- Witness for the amended C2 on a three-record batch with counter 5. -/
theorem c2_amended_assignment_witness :
    ((attachIds [some 1, none, none] 5).2 = 5 + countFalsy [some 1, none, none])
    ∧ 5 ≤ (attachIds [some 1, none, none] 5).1.getD 1 0
    ∧ (attachIds [some 1, none, none] 5).1.getD 1 0 <
        (attachIds [some 1, none, none] 5).1.getD 2 0 :=
  ⟨(c2_amended_assignment [some 1, none, none] 5).2.1,
   (c2_amended_assignment [some 1, none, none] 5).2.2.1 1 (by decide) (by decide),
   (c2_amended_assignment [some 1, none, none] 5).2.2.2 1 2 (by decide) (by decide)
     (by decide) (by decide)⟩

/-- The truthiness filter keeps exactly the nonzero parse results. -/
theorem truthyInt_eq_some (o : Option Int) (d : Int) :
    truthyInt o = some d ↔ o = some d ∧ d ≠ 0 := by
  constructor
  · intro h
    cases o with
    | none => exact absurd h (by simp [truthyInt])
    | some v =>
      rw [truthyInt] at h
      by_cases hv : v = 0
      · rw [if_pos (by simpa using hv)] at h
        exact absurd h (by simp)
      · rw [if_neg (by simpa using hv)] at h
        cases h
        exact ⟨rfl, hv⟩
  · rintro ⟨rfl, h⟩
    rw [truthyInt, if_neg (by simpa using h)]

/-- C10: for every dependencies input string, the parsed array contains
exactly the nonzero integer parse results of the comma-separated tokens; a
token parsing to NaN or to 0 is silently dropped, so a reference to task id
0 or a non-numeric token never enters the array. -/
theorem c10_deps_nonzero (raw : String) :
    (∀ d ∈ parseDependencies raw, d ≠ 0)
    ∧ (∀ d : Int, d ∈ parseDependencies raw ↔
        ∃ tok ∈ depTokens raw, jsToken tok = some d ∧ d ≠ 0) := by
  have hmem : ∀ d : Int, d ∈ parseDependencies raw ↔
      ∃ tok ∈ depTokens raw, jsToken tok = some d ∧ d ≠ 0 := by
    intro d
    rw [parseDependencies, List.mem_filterMap]
    constructor
    · rintro ⟨o, ho, hto⟩
      obtain ⟨tok, htok, rfl⟩ := List.mem_map.mp ho
      obtain ⟨h1, h2⟩ := (truthyInt_eq_some _ _).mp hto
      exact ⟨tok, htok, h1, h2⟩
    · rintro ⟨tok, htok, h1, h2⟩
      exact ⟨jsToken tok, List.mem_map_of_mem _ htok, (truthyInt_eq_some _ _).mpr ⟨h1, h2⟩⟩
  refine ⟨?_, hmem⟩
  intro d hd
  obtain ⟨tok, _, _, h⟩ := (hmem d).mp hd
  exact h

/-- Witness for C10 on the input 4 comma 5. -/
theorem c10_deps_nonzero_witness : (5 : Int) ∈ parseDependencies "4, 5" ∧ (5 : Int) ≠ 0 :=
  ⟨by decide, (c10_deps_nonzero "4, 5").1 5 (by decide)⟩
